import Mathlib

/-!
Verification of the command pipeline of yot_presentation_v5.3.1.py
(classes OptimizedInputBuffer, PowerPointControllerV53, MultiLanguageDetector,
AdvancedTrainingDataLogger), as a shallow embedding in Lean 4.

Machine reals (Python floats for timestamps and confidences) are modelled as
rationals; the wall clock is passed explicitly to each operation that reads
time.time().  Fallible code paths are modelled with Except: an uncaught Python
exception escaping a method is an Except.error value.
-/

namespace YotV531

/-! ## OptimizedInputBuffer

The Python buffer stores tuples (priority, time.time(), command) in a
queue.PriorityQueue, which is a min-heap under the lexicographic tuple order.
-/

/-- One queued element: the Python tuple (priority, arrival time, command). -/
structure Entry where
  priority : Int
  time : ℚ
  command : String
deriving DecidableEq

/-- Lexicographic strict order on entries, exactly the Python tuple order used
by the heap inside queue.PriorityQueue: priority first, then arrival time,
then the payload string. -/
def Entry.lt (a b : Entry) : Prop :=
  a.priority < b.priority ∨
    (a.priority = b.priority ∧
      (a.time < b.time ∨ (a.time = b.time ∧ a.command < b.command)))

instance (a b : Entry) : Decidable (Entry.lt a b) := by
  unfold Entry.lt; infer_instance

/-- One comparison step of the minimum fold: keep the strictly smaller entry. -/
def minStep (acc y : Entry) : Entry :=
  if Entry.lt y acc then y else acc

/-- Minimal element as the heap would deliver it: fold over the list keeping
the strictly smaller entry. -/
def minEntry : List Entry → Option Entry
  | [] => none
  | x :: xs => some (xs.foldl minStep x)

/-- queue.get_nowait / queue.get(block=False): remove and return a minimal
entry, or nothing when the queue is empty. -/
def popMin (q : List Entry) : Option (Entry × List Entry) :=
  match minEntry q with
  | none => none
  | some m => some (m, q.erase m)

/-- State of an OptimizedInputBuffer: buffer_size, debounce interval in
seconds (the constructor divides debounce_ms by 1000), the queued entries and
last_execution_time. -/
structure BufferState where
  capacity : Nat
  debounce : ℚ
  queue : List Entry
  last_execution_time : ℚ
deriving DecidableEq

/-- OptimizedInputBuffer.__init__(buffer_size=10, debounce_ms=50). -/
def mkBuffer (buffer_size : Nat := 10) (debounce_ms : ℚ := 50) : BufferState :=
  { capacity := buffer_size
    debounce := debounce_ms / 1000
    queue := []
    last_execution_time := 0 }

/-- queue.put(item, block=False): fails (queue.Full) iff the queue is bounded
and already holds capacity items; Python treats maxsize 0 as unbounded. -/
def putNowait (cap : Nat) (q : List Entry) (e : Entry) : Option (List Entry) :=
  if cap = 0 ∨ q.length < cap then some (q ++ [e]) else none

/-- OptimizedInputBuffer.add_input(command, priority).  The wall-clock reading
time.time() is the explicit argument now.  On queue.Full the code pops one
entry with get_nowait (catching queue.Empty as a False return) and retries the
put; that second put is outside any except clause, so a queue.Full raised
there escapes the method, modelled as Except.error. -/
def add_input (s : BufferState) (command : String) (priority : Int) (now : ℚ) :
    Except String (Bool × BufferState) :=
  let e : Entry := ⟨priority, now, command⟩
  match putNowait s.capacity s.queue e with
  | some q => .ok (true, { s with queue := q })
  | none =>
    match popMin s.queue with
    | none => .ok (false, s)
    | some (_, q1) =>
      match putNowait s.capacity q1 e with
      | some q2 => .ok (true, { s with queue := q2 })
      | none => .error "queue.Full"

/-- OptimizedInputBuffer.get_next().  Returns nothing while the debounce gate
is closed (now - last_execution_time < debounce); otherwise pops the minimal
entry and, only on a successful pop, resets last_execution_time to now. -/
def get_next (s : BufferState) (now : ℚ) : Option String × BufferState :=
  if now - s.last_execution_time < s.debounce then (none, s)
  else
    match popMin s.queue with
    | none => (none, s)
    | some (e, q1) =>
      (some e.command, { s with queue := q1, last_execution_time := now })

/-- OptimizedInputBuffer.flush(): drain the queue, leaving the clock alone. -/
def flush (s : BufferState) : BufferState :=
  { s with queue := [] }

/-! ## Language catalog and command matcher

Language, MULTILANG_COMMANDS and PowerPointControllerV53._compile_patterns /
match_command.  Every raw pattern string in the source is either a plain
phrase with no regex metacharacter, or has the shape
(?:alt1|alt2|...)\s*(\d+) (a bare literal before \s*(\d+) is the one-element
alternation).  The embedding keeps that shape explicit, and implements the
semantics of re.search with re.IGNORECASE on it: leftmost position first, and
at a position the alternatives are tried in written order.  Case folding is
modelled with String.toLower, which lowers ASCII letters; every pattern in the
catalog is already lower-case. -/

inductive Language
  | ENGLISH | SPANISH | FRENCH | GERMAN | ITALIAN | PORTUGUESE | CHINESE | JAPANESE
deriving DecidableEq

/-- The code field of LANGUAGE_CONFIGS. -/
def Language.code : Language → String
  | .ENGLISH => "en"
  | .SPANISH => "es"
  | .FRENCH => "fr"
  | .GERMAN => "de"
  | .ITALIAN => "it"
  | .PORTUGUESE => "pt"
  | .CHINESE => "zh"
  | .JAPANESE => "ja"

/-- The two shapes of raw pattern strings occurring in MULTILANG_COMMANDS. -/
inductive Pat
  | lit (s : String)
  | altNum (alts : List String)
deriving DecidableEq

/-- The test r"(\d+)" in pattern from _compile_patterns: exactly the altNum
patterns contain the capturing group. -/
def Pat.is_regex : Pat → Bool
  | .lit _ => false
  | .altNum _ => true

/-- ASCII case folding of re.IGNORECASE.  The catalog patterns are written in
lower case, and the source feeds transcripts through an ASCII speech API, so
folding the ASCII range is the behaviour exercised by the program. -/
def lowerChar (c : Char) : Char :=
  if 65 ≤ c.toNat ∧ c.toNat ≤ 90 then Char.ofNat (c.toNat + 32) else c

def lowerStr (s : String) : List Char :=
  s.data.map lowerChar

/-- Does the pattern list lead the text at its very first position? -/
def leadsWith : List Char → List Char → Bool
  | [], _ => true
  | _ :: _, [] => false
  | p :: ps, t :: ts => (p == t) && leadsWith ps ts

/-- re.search for a plain phrase: the phrase occurs at some position. -/
def subSearch (pat : List Char) : List Char → Bool
  | [] => leadsWith pat []
  | c :: ts => leadsWith pat (c :: ts) || subSearch pat ts

/-- The characters matched by \s in the patterns at hand. -/
def isSpaceChar (c : Char) : Bool :=
  [' ', '\t', '\n', '\r', '\x0b', '\x0c'].contains c

/-- Try the alternatives of (?:a1|a2|...)\s*(\d+) at one position, in written
order; on success return the digits captured by the group. -/
def altNumAt (alts : List (List Char)) (t : List Char) : Option String :=
  match alts with
  | [] => none
  | a :: rest =>
    if leadsWith a t then
      let after := (t.drop a.length).dropWhile isSpaceChar
      let ds := after.takeWhile Char.isDigit
      if ds.isEmpty then altNumAt rest t else some (String.mk ds)
    else altNumAt rest t

/-- re.search for (?:a1|a2|...)\s*(\d+): leftmost matching position wins. -/
def searchAltNum (alts : List (List Char)) : List Char → Option String
  | [] => altNumAt alts []
  | c :: ts =>
    match altNumAt alts (c :: ts) with
    | some d => some d
    | none => searchAltNum alts ts

/-- p.re.search(text) under re.IGNORECASE, together with the value the code
reads as match.groups()[0]: none = no match, some g = a match whose first
group is g (g = none for the group-free plain phrases). -/
def patSearch (p : Pat) (text : String) : Option (Option String) :=
  let t := lowerStr text
  match p with
  | .lit s => if subSearch (lowerStr s) t then some none else none
  | .altNum alts =>
    match searchAltNum (alts.map lowerStr) t with
    | some d => some (some d)
    | none => none

/-- One value of the MULTILANG_COMMANDS dict: per-language raw pattern lists,
the key field and the fuzzy_target field. -/
structure CommandData where
  patterns : Language → List Pat
  key : Option String
  fuzzy_target : Option String

def nextSlideData : CommandData where
  patterns
    | .ENGLISH => [.lit "next", .lit "forward", .lit "advance", .lit "go right", .lit "next slide"]
    | .SPANISH => [.lit "siguiente", .lit "adelante", .lit "próxima", .lit "ir a la derecha"]
    | .FRENCH => [.lit "suivant", .lit "avancer", .lit "aller à droite", .lit "prochaine diapo"]
    | .GERMAN => [.lit "nächst", .lit "vorwärts", .lit "nach rechts", .lit "nächste folie"]
    | .ITALIAN => [.lit "prossimo", .lit "avanti", .lit "successivo", .lit "prossima diapositiva"]
    | .PORTUGUESE => [.lit "próximo", .lit "avançar", .lit "seguinte", .lit "próximo slide"]
    | .CHINESE => [.lit "下一张", .lit "下一个", .lit "向前"]
    | .JAPANESE => [.lit "次へ", .lit "進む", .lit "次のスライド"]
  key := some "right"
  fuzzy_target := some "next"

def prevSlideData : CommandData where
  patterns
    | .ENGLISH => [.lit "previous", .lit "back", .lit "go back", .lit "return", .lit "last slide"]
    | .SPANISH => [.lit "anterior", .lit "atrás", .lit "volver", .lit "diapositiva anterior"]
    | .FRENCH => [.lit "précédent", .lit "retour", .lit "aller à gauche", .lit "diapo précédente"]
    | .GERMAN => [.lit "zurück", .lit "vorherig", .lit "nach links", .lit "vorherige folie"]
    | .ITALIAN => [.lit "precedente", .lit "indietro", .lit "tornare", .lit "diapositiva precedente"]
    | .PORTUGUESE => [.lit "anterior", .lit "voltar", .lit "slide anterior", .lit "para trás"]
    | .CHINESE => [.lit "上一张", .lit "上一个", .lit "向后"]
    | .JAPANESE => [.lit "戻る", .lit "前へ", .lit "前のスライド"]
  key := some "left"
  fuzzy_target := some "previous"

def jumpSlideData : CommandData where
  patterns
    | .ENGLISH => [.altNum ["jump to", "go to", "slide", "page"], .altNum ["number"]]
    | .SPANISH => [.altNum ["salta a", "ve a", "diapositiva", "página"]]
    | .FRENCH => [.altNum ["aller à", "diapo"], .altNum ["numéro"]]
    | .GERMAN => [.altNum ["gehe zu", "folie", "seite"]]
    | .ITALIAN => [.altNum ["vai a", "diapositiva"]]
    | .PORTUGUESE => [.altNum ["ir para", "slide", "página"]]
    | .CHINESE => [.altNum ["跳到", "转到", "幻灯片"]]
    | .JAPANESE => [.altNum ["スライド", "ページ"]]
  key := none
  fuzzy_target := none

def startShowData : CommandData where
  patterns
    | .ENGLISH => [.lit "start presentation", .lit "begin show", .lit "present now"]
    | .SPANISH => [.lit "comenzar presentación", .lit "iniciar show", .lit "presentar ahora"]
    | .FRENCH => [.lit "commencer présentation", .lit "débuter diaporama"]
    | .GERMAN => [.lit "präsentation starten", .lit "show beginnen"]
    | .ITALIAN => [.lit "inizia presentazione", .lit "avvia spettacolo"]
    | .PORTUGUESE => [.lit "iniciar apresentação", .lit "começar show"]
    | .CHINESE => [.lit "开始演示", .lit "开始放映"]
    | .JAPANESE => [.lit "プレゼンテーション開始", .lit "スライドショー開始"]
  key := some "f5"
  fuzzy_target := some "start"

def endShowData : CommandData where
  patterns
    | .ENGLISH => [.lit "stop presentation", .lit "end show", .lit "exit show", .lit "close powerpoint"]
    | .SPANISH => [.lit "detener presentación", .lit "finalizar show", .lit "cerrar powerpoint"]
    | .FRENCH => [.lit "arrêter présentation", .lit "quitter diaporama"]
    | .GERMAN => [.lit "präsentation beenden", .lit "show beenden"]
    | .ITALIAN => [.lit "ferma presentazione", .lit "termina spettacolo"]
    | .PORTUGUESE => [.lit "parar apresentação", .lit "sair do show"]
    | .CHINESE => [.lit "停止演示", .lit "退出幻灯片"]
    | .JAPANESE => [.lit "プレゼンテーション終了", .lit "スライドショー終了"]
  key := some "esc"
  fuzzy_target := some "end"

def blackoutData : CommandData where
  patterns
    | .ENGLISH => [.lit "black screen", .lit "darken", .lit "turn off"]
    | .SPANISH => [.lit "pantalla negra", .lit "oscurecer", .lit "apagar"]
    | .FRENCH => [.lit "écran noir", .lit "assombrir"]
    | .GERMAN => [.lit "schwarzer bildschirm", .lit "verdunkeln"]
    | .ITALIAN => [.lit "schermo nero", .lit "scurire"]
    | .PORTUGUESE => [.lit "tela preta", .lit "escurecer"]
    | .CHINESE => [.lit "黑屏", .lit "关闭"]
    | .JAPANESE => [.lit "黒い画面", .lit "暗くする"]
  key := some "b"
  fuzzy_target := some "black"

def zoomInData : CommandData where
  patterns
    | .ENGLISH => [.lit "zoom in", .lit "magnify", .lit "enlarge"]
    | .SPANISH => [.lit "zoom in", .lit "ampliar", .lit "agrandar"]
    | .FRENCH => [.lit "zoom avant", .lit "agrandir"]
    | .GERMAN => [.lit "zoom ein", .lit "vergrößern"]
    | .ITALIAN => [.lit "zoom in", .lit "ingrandire"]
    | .PORTUGUESE => [.lit "zoom in", .lit "ampliar"]
    | .CHINESE => [.lit "放大", .lit "缩放"]
    | .JAPANESE => [.lit "ズームイン", .lit "拡大"]
  key := none
  fuzzy_target := some "zoom"

def penToolData : CommandData where
  patterns
    | .ENGLISH => [.lit "pen tool", .lit "draw", .lit "annotation"]
    | .SPANISH => [.lit "herramienta pluma", .lit "dibujar"]
    | .FRENCH => [.lit "outil stylo", .lit "dessiner"]
    | .GERMAN => [.lit "stiftwerkzeug", .lit "zeichnen"]
    | .ITALIAN => [.lit "strumento penna", .lit "disegnare"]
    | .PORTUGUESE => [.lit "ferramenta caneta", .lit "desenhar"]
    | .CHINESE => [.lit "笔工具", .lit "绘制"]
    | .JAPANESE => [.lit "ペンツール", .lit "描画"]
  key := some "ctrl+p"
  fuzzy_target := some "pen"

def exitProgramData : CommandData where
  patterns
    | .ENGLISH => [.lit "terminate program", .lit "kill system", .lit "shutdown voice"]
    | .SPANISH => [.lit "terminar programa", .lit "apagar sistema"]
    | .FRENCH => [.lit "terminer programme", .lit "arrêter système"]
    | .GERMAN => [.lit "programm beenden", .lit "system herunterfahren"]
    | .ITALIAN => [.lit "termina programma", .lit "spegni sistema"]
    | .PORTUGUESE => [.lit "encerrar programa", .lit "desligar sistema"]
    | .CHINESE => [.lit "退出程序", .lit "关闭系统"]
    | .JAPANESE => [.lit "プログラム終了", .lit "システム終了"]
  key := none
  fuzzy_target := some "exit"

/-- The MULTILANG_COMMANDS dict, in insertion order.  Every command defines a
pattern list for all eight languages, so the membership test
language not in data inside match_command never skips a command. -/
def MULTILANG_COMMANDS : List (String × CommandData) :=
  [("next_slide", nextSlideData),
   ("prev_slide", prevSlideData),
   ("jump_slide", jumpSlideData),
   ("start_show", startShowData),
   ("end_show", endShowData),
   ("blackout", blackoutData),
   ("zoom_in", zoomInData),
   ("pen_tool", penToolData),
   ("exit_program", exitProgramData)]

/-- One element of self.patterns, as built by _compile_patterns. -/
structure CompiledPattern where
  pat : Pat
  cmd : String
  language : Language
  is_regex : Bool
deriving DecidableEq

/-- PowerPointControllerV53._compile_patterns: command-major, then the
configured supported languages in order, then the raw patterns in order. -/
def compile_patterns (supported : List Language) : List CompiledPattern :=
  MULTILANG_COMMANDS.flatMap fun cd =>
    supported.flatMap fun lang =>
      (cd.2.patterns lang).map fun p =>
        { pat := p, cmd := cd.1, language := lang, is_regex := p.is_regex }

/-- Config.SUPPORTED_LANGUAGES default. -/
def defaultSupported : List Language :=
  [.ENGLISH, .SPANISH, .FRENCH, .GERMAN]

/-- self.patterns of a controller built with the default Config. -/
def defaultPatterns : List CompiledPattern :=
  compile_patterns defaultSupported

/-- Return value of match_command: (command, params, score, method); the
method strings are exactly the Python values "Regex" and "Fuzzy", with none
for the final rejection. -/
structure MatchResult where
  cmd : Option String
  params : Option String
  score : Nat
  method : Option String
deriving DecidableEq

/-- Stage 1 of match_command: walk self.patterns in order, skip entries whose
language differs, and return on the first regex hit. -/
def regex_stage (patterns : List CompiledPattern) (text : String)
    (language : Language) : Option MatchResult :=
  match patterns with
  | [] => none
  | p :: rest =>
    if p.language = language then
      match patSearch p.pat text with
      | some g =>
        some { cmd := some p.cmd
               params := if p.is_regex then g else none
               score := 100
               method := some "Regex" }
      | none => regex_stage rest text language
    else regex_stage rest text language

/-- One iteration of the fuzzy loop of match_command: commands whose
fuzzy_target is None or empty are skipped (the Python test
if not fuzzy_target), and a strictly greater score replaces the best. -/
def fuzzyStep (sim : String → String → Nat) (text : String)
    (best : Option String × Nat) (cd : String × CommandData) :
    Option String × Nat :=
  match cd.2.fuzzy_target with
  | none => best
  | some ft =>
    if ft.isEmpty then best
    else
      let score := sim ft text
      if best.2 < score then (some cd.1, score) else best

/-- Stage 2 of match_command: fold over MULTILANG_COMMANDS keeping the
strictly best fuzz.partial_ratio score of the fuzzy_target against the text.
The similarity scorer (the external thefuzz library) is a parameter. -/
def fuzzy_best (sim : String → String → Nat) (text : String) :
    Option String × Nat :=
  MULTILANG_COMMANDS.foldl (fuzzyStep sim text) (none, 0)

/-- PowerPointControllerV53.match_command, with the fuzzy threshold
(self.config.FUZZY_THRESHOLD, default 80) and the similarity scorer passed
explicitly. -/
def match_command (sim : String → String → Nat) (patterns : List CompiledPattern)
    (threshold : Nat) (text : String) (language : Language) : MatchResult :=
  match regex_stage patterns text language with
  | some r => r
  | none =>
    let best := fuzzy_best sim text
    if threshold ≤ best.2 then
      { cmd := best.1, params := none, score := best.2, method := some "Fuzzy" }
    else
      { cmd := none, params := none, score := 0, method := none }

/-- Every language key appearing in the source dict. -/
def Language.all : List Language :=
  [.ENGLISH, .SPANISH, .FRENCH, .GERMAN, .ITALIAN, .PORTUGUESE, .CHINESE, .JAPANESE]

/-- A command is parametric when one of its raw patterns (in any language)
carries the (\d+) capturing group. -/
def is_parametric (cmd : String) : Bool :=
  match MULTILANG_COMMANDS.lookup cmd with
  | some d => Language.all.any fun l => (d.patterns l).any Pat.is_regex
  | none => false

/-! ## MultiLanguageDetector

detect wraps the external langdetect classifier, passed here as the function
classify (none models a LangDetectException).  Python float confidences are
modelled as exact rationals.  detect mutates only self.stats, a telemetry
counter that the return value never reads, so the embedded detect is the pure
returned-value function of the source method. -/

structure DetectorConfig where
  supported_languages : List Language
  primary_language : Language

/-- MultiLanguageDetector.detect. -/
def detect (classify : String → Option String) (d : DetectorConfig)
    (text : String) : Language × ℚ :=
  if text.trim.length < 2 then (d.primary_language, 0)
  else
    match classify text with
    | none => (d.primary_language, 0)
    | some detected =>
      match d.supported_languages.find? (fun l => l.code == detected) with
      | some l => (l, 0.95)
      | none =>
        match d.supported_languages.find?
            (fun l => l.code.startsWith (detected.take 2)) with
        | some l => (l, 0.85)
        | none => (d.primary_language, 0.50)

/-- One step of the worker pool: task i computes f on the i-th text and
stores the result in slot i (a task with an out-of-range index does
nothing; a complete schedule has none). -/
def poolStep (f : String → Language × ℚ) (texts : List String)
    (slots : List (Option (Language × ℚ))) (i : Nat) :
    List (Option (Language × ℚ)) :=
  match texts[i]? with
  | none => slots
  | some t => slots.set i (some (f t))

/-- Execution of the ThreadPoolExecutor over an arbitrary interleaving: the
schedule lists the tasks in the order the workers happen to run them. -/
def runPool (f : String → Language × ℚ) (texts : List String)
    (sched : List Nat) : List (Option (Language × ℚ)) :=
  sched.foldl (poolStep f texts) (List.replicate texts.length none)

/-- Collect the futures in input order; none if some task never ran. -/
def gatherSome : List (Option (Language × ℚ)) → Option (List (Language × ℚ))
  | [] => some []
  | none :: _ => none
  | some x :: rest => (gatherSome rest).map (fun l => x :: l)

/-- MultiLanguageDetector.detect_batch: the sequential branch is a list
comprehension; the parallel branch is executor.map over a worker pool, whose
interleaving is the explicit schedule argument. -/
def detect_batch (classify : String → Option String) (d : DetectorConfig)
    (parallel : Bool) (texts : List String) (sched : List Nat) :
    Option (List (Language × ℚ)) :=
  if parallel then gatherSome (runPool (detect classify d) texts sched)
  else some (texts.map (detect classify d))

/-! ## AdvancedTrainingDataLogger

log_text writes one row into a SQLite table whose id column is the PRIMARY
KEY, using INSERT OR REPLACE (replace the row with that id if present, insert
otherwise), and then appends one JSON line to the jsonl file unconditionally.
The table is modelled as the list of its rows, the jsonl file as the list of
its lines. -/

structure AudioTextRecord where
  id : String
  text : String
  command_matched : String
  confidence : ℚ
  timestamp : String
  source : String
  language : String
  user_id : String
  response_time_ms : ℚ
deriving DecidableEq

structure LoggerState where
  db : List AudioTextRecord
  jsonl : List AudioTextRecord
deriving DecidableEq

/-- Fresh logger over an empty store (CREATE TABLE IF NOT EXISTS). -/
def emptyLogger : LoggerState :=
  { db := [], jsonl := [] }

/-- AdvancedTrainingDataLogger.log_text. -/
def log_text (s : LoggerState) (r : AudioTextRecord) : LoggerState :=
  { db := s.db.filter (fun x => x.id != r.id) ++ [r]
    jsonl := s.jsonl ++ [r] }

/-- The aggregates of get_statistics used here: SELECT COUNT(*), and the
GROUP BY language / command_matched counts. -/
structure Statistics where
  total_entries : Nat
  by_language : String → Nat
  by_command : String → Nat

/-- AdvancedTrainingDataLogger.get_statistics, restricted to its counting
fields. -/
def get_statistics (s : LoggerState) : Statistics :=
  { total_entries := s.db.length
    by_language := fun l => (s.db.filter (fun r => r.language == l)).length
    by_command := fun c => (s.db.filter (fun r => r.command_matched == c)).length }

/-! ### Order lemmas for Entry.lt -/

lemma Entry.lt_irrefl (a : Entry) : ¬ Entry.lt a a := by
  unfold Entry.lt
  push_neg
  refine ⟨le_refl _, fun _ => ⟨le_refl _, fun _ => le_refl _⟩⟩

lemma Entry.lt_trans {a b c : Entry} (hab : Entry.lt a b) (hbc : Entry.lt b c) :
    Entry.lt a c := by
  rcases hab with h1 | ⟨e1, h1⟩
  · rcases hbc with h2 | ⟨e2, h2⟩
    · exact Or.inl (h1.trans h2)
    · exact Or.inl (e2 ▸ h1)
  · rcases hbc with h2 | ⟨e2, h2⟩
    · exact Or.inl (e1 ▸ h2)
    · refine Or.inr ⟨e1.trans e2, ?_⟩
      rcases h1 with t1 | ⟨et1, t1⟩
      · rcases h2 with t2 | ⟨et2, t2⟩
        · exact Or.inl (t1.trans t2)
        · exact Or.inl (et2 ▸ t1)
      · rcases h2 with t2 | ⟨et2, t2⟩
        · exact Or.inl (et1 ▸ t2)
        · exact Or.inr ⟨et1.trans et2, t1.trans t2⟩

lemma Entry.lt_total (a b : Entry) : Entry.lt a b ∨ a = b ∨ Entry.lt b a := by
  rcases lt_trichotomy a.priority b.priority with h | h | h
  · exact Or.inl (Or.inl h)
  · rcases lt_trichotomy a.time b.time with t | t | t
    · exact Or.inl (Or.inr ⟨h, Or.inl t⟩)
    · rcases lt_trichotomy a.command b.command with c | c | c
      · exact Or.inl (Or.inr ⟨h, Or.inr ⟨t, c⟩⟩)
      · refine Or.inr (Or.inl ?_)
        cases a; cases b
        simp_all
      · exact Or.inr (Or.inr (Or.inr ⟨h.symm, Or.inr ⟨t.symm, c⟩⟩))
    · exact Or.inr (Or.inr (Or.inr ⟨h.symm, Or.inl t⟩))
  · exact Or.inr (Or.inr (Or.inl h))

/-- The fold inside minEntry returns the accumulator or a list element, and
nothing in scope is strictly below it. -/
lemma foldl_min_spec (xs : List Entry) (acc : Entry) :
    (xs.foldl minStep acc = acc ∨ xs.foldl minStep acc ∈ xs)
    ∧ ¬ Entry.lt acc (xs.foldl minStep acc)
    ∧ ∀ y ∈ xs, ¬ Entry.lt y (xs.foldl minStep acc) := by
  induction xs generalizing acc with
  | nil => exact ⟨Or.inl rfl, Entry.lt_irrefl acc, by simp⟩
  | cons z zs ih =>
    classical
    by_cases hz : Entry.lt z acc
    · have hs : minStep acc z = z := if_pos hz
      rcases ih z with ⟨hmem, hacc, hall⟩
      simp only [List.foldl_cons, hs]
      refine ⟨?_, ?_, ?_⟩
      · rcases hmem with h | h
        · exact Or.inr (List.mem_cons.mpr (Or.inl h))
        · exact Or.inr (List.mem_cons_of_mem _ h)
      · intro hlt
        exact hacc (Entry.lt_trans hz hlt)
      · intro y hy
        rcases List.mem_cons.mp hy with h | h
        · exact h ▸ hacc
        · exact hall y h
    · have hs : minStep acc z = acc := if_neg hz
      rcases ih acc with ⟨hmem, hacc, hall⟩
      simp only [List.foldl_cons, hs]
      refine ⟨?_, hacc, ?_⟩
      · rcases hmem with h | h
        · exact Or.inl h
        · exact Or.inr (List.mem_cons_of_mem _ h)
      · intro y hy
        rcases List.mem_cons.mp hy with h | h
        · subst h
          intro hlt
          rcases Entry.lt_total y acc with ht | ht | ht
          · exact hz ht
          · exact hacc (ht ▸ hlt)
          · exact hacc (Entry.lt_trans ht hlt)
        · exact hall y h

lemma minEntry_spec {q : List Entry} {m : Entry} (h : minEntry q = some m) :
    m ∈ q ∧ ∀ y ∈ q, ¬ Entry.lt y m := by
  cases q with
  | nil => simp [minEntry] at h
  | cons x xs =>
    simp only [minEntry, Option.some.injEq] at h
    rcases foldl_min_spec xs x with ⟨hmem, hacc, hall⟩
    rw [h] at hmem hacc hall
    refine ⟨?_, ?_⟩
    · rcases hmem with h1 | h1
      · exact List.mem_cons.mpr (Or.inl h1)
      · exact List.mem_cons_of_mem _ h1
    · intro y hy
      rcases List.mem_cons.mp hy with h1 | h1
      · exact h1 ▸ hacc
      · exact hall y h1

lemma minEntry_isSome_of_ne_nil {q : List Entry} (h : q ≠ []) :
    ∃ m, minEntry q = some m := by
  cases q with
  | nil => exact absurd rfl h
  | cons x xs => exact ⟨_, rfl⟩

lemma minEntry_none_iff {q : List Entry} : minEntry q = none ↔ q = [] := by
  cases q <;> simp [minEntry]

lemma popMin_length {q : List Entry} {e : Entry} {q1 : List Entry}
    (h : popMin q = some (e, q1)) : q1.length + 1 = q.length := by
  unfold popMin at h
  cases hm : minEntry q with
  | none => rw [hm] at h; exact absurd h (by simp)
  | some m =>
    rw [hm] at h
    rcases minEntry_spec hm with ⟨hmem, _⟩
    cases h
    rw [List.length_erase_of_mem hmem]
    exact Nat.succ_pred_eq_of_pos (List.length_pos_of_mem hmem)

lemma popMin_some {q : List Entry} (h : q ≠ []) :
    ∃ e q1, popMin q = some (e, q1) ∧ e ∈ q ∧ (∀ y ∈ q, ¬ Entry.lt y e) ∧
      q1 = q.erase e := by
  rcases minEntry_isSome_of_ne_nil h with ⟨m, hm⟩
  rcases minEntry_spec hm with ⟨hmem, hmin⟩
  exact ⟨m, q.erase m, by unfold popMin; rw [hm], hmem, hmin, rfl⟩

lemma get_next_closed {s : BufferState} {now : ℚ}
    (h : now - s.last_execution_time < s.debounce) :
    get_next s now = (none, s) := by
  unfold get_next; rw [if_pos h]

lemma get_next_open {s : BufferState} {now : ℚ}
    (h : ¬ now - s.last_execution_time < s.debounce) :
    get_next s now =
      match popMin s.queue with
      | none => (none, s)
      | some (e, q1) =>
        (some e.command, { s with queue := q1, last_execution_time := now }) := by
  unfold get_next; rw [if_neg h]

lemma get_next_some {s : BufferState} {now : ℚ} {e : Entry} {q1 : List Entry}
    (hg : ¬ now - s.last_execution_time < s.debounce)
    (hp : popMin s.queue = some (e, q1)) :
    get_next s now =
      (some e.command, { s with queue := q1, last_execution_time := now }) := by
  rw [get_next_open hg, hp]

/-! ## Buffer claims -/

/-- Claim C1 (amended): for every buffer state whose debounce gate is open
and whose queue is non-empty, get_next pops and returns a queued item that is
minimal in the heap order used by the code - numerically lowest priority
first, ties broken by earliest arrival time (then by the payload string) -
and resets the gate clock to now. -/
theorem C1_get_next_pops_minimum (s : BufferState) (now : ℚ)
    (hgate : ¬ now - s.last_execution_time < s.debounce)
    (hne : s.queue ≠ []) :
    ∃ e ∈ s.queue,
      (∀ y ∈ s.queue, ¬ Entry.lt y e) ∧
      get_next s now =
        (some e.command,
          { s with queue := s.queue.erase e, last_execution_time := now }) := by
  rcases popMin_some hne with ⟨e, q1, hp, hmem, hmin, hq⟩
  refine ⟨e, hmem, hmin, ?_⟩
  rw [get_next_open hgate, hp, hq]

/-- Open-gate two-element buffer whose numerically highest priority item is
⟨5, 2, "high"⟩. -/
def c1CounterBuf : BufferState :=
  ⟨2, 1, [⟨0, 1, "low"⟩, ⟨5, 2, "high"⟩], 0⟩

/-- Claim C1 counterexample: with the gate open and the queue holding a
priority-0 item and a priority-5 item, the claim says get_next returns the
item with the highest priority, "high"; the code returns the priority-0 item
"low", because queue.PriorityQueue is a min-heap on the (priority, time,
command) tuple. -/
theorem C1_counterexample :
    (⟨5, 2, "high"⟩ : Entry) ∈ c1CounterBuf.queue ∧
    (∀ y ∈ c1CounterBuf.queue, y.priority ≤ 5) ∧
    ¬ (2 : ℚ) - c1CounterBuf.last_execution_time < c1CounterBuf.debounce ∧
    (get_next c1CounterBuf 2).1 = some "low" ∧
    (get_next c1CounterBuf 2).1 ≠ some "high" := by
  refine ⟨by simp [c1CounterBuf], ?_, by norm_num [c1CounterBuf], ?_, ?_⟩
  · intro y hy
    simp only [c1CounterBuf, List.mem_cons, List.mem_singleton] at hy
    rcases hy with h | h | h <;> first | (subst h; norm_num) | cases h
  · norm_num [c1CounterBuf, get_next, popMin, minEntry, minStep, Entry.lt,
      List.erase_cons_head]
  · norm_num [c1CounterBuf, get_next, popMin, minEntry, minStep, Entry.lt,
      List.erase_cons_head]
    decide

/-- Open-gate buffer used to instantiate the amended C1 theorem. -/
def c1Buf : BufferState :=
  ⟨10, 1, [⟨3, 5, "slow"⟩, ⟨7, 6, "fast"⟩], 0⟩

theorem C1_witness :
    ∃ e ∈ c1Buf.queue,
      (∀ y ∈ c1Buf.queue, ¬ Entry.lt y e) ∧
      get_next c1Buf 2 =
        (some e.command,
          { c1Buf with queue := c1Buf.queue.erase e, last_execution_time := 2 }) :=
  C1_get_next_pops_minimum c1Buf 2 (by norm_num [c1Buf]) (by simp [c1Buf])

/-- Claim C4: on a buffer of capacity 2, three add_input calls with
priorities 0, 0, 5 at increasing arrival times all return True without
blocking or raising, and the eviction triggered by the third call removes the
lowest-priority oldest-arrival item, leaving the newer priority-0 item and
the priority-5 item. -/
theorem C4_capacity_two_eviction (t1 t2 t3 : ℚ) (p1 p2 p3 : String)
    (h12 : t1 < t2) (_h23 : t2 < t3) :
    ∃ s1 s2 s3 : BufferState,
      add_input (mkBuffer 2 50) p1 0 t1 = .ok (true, s1) ∧
      add_input s1 p2 0 t2 = .ok (true, s2) ∧
      add_input s2 p3 5 t3 = .ok (true, s3) ∧
      s2.queue = [⟨0, t1, p1⟩, ⟨0, t2, p2⟩] ∧
      s3.queue = [⟨0, t2, p2⟩, ⟨5, t3, p3⟩] := by
  refine ⟨⟨2, 50 / 1000, [⟨0, t1, p1⟩], 0⟩,
          ⟨2, 50 / 1000, [⟨0, t1, p1⟩, ⟨0, t2, p2⟩], 0⟩,
          ⟨2, 50 / 1000, [⟨0, t2, p2⟩, ⟨5, t3, p3⟩], 0⟩, ?_, ?_, ?_, rfl, rfl⟩
  · norm_num [mkBuffer, add_input, putNowait]
  · norm_num [add_input, putNowait]
  · have hlt : ¬ Entry.lt (⟨0, t2, p2⟩ : Entry) ⟨0, t1, p1⟩ := by
      rintro (h | ⟨-, h | ⟨h, -⟩⟩)
      · exact absurd h (lt_irrefl 0)
      · exact absurd h (not_lt.mpr h12.le)
      · exact absurd h (ne_of_gt h12)
    norm_num [add_input, putNowait, popMin, minEntry, minStep, hlt,
      List.erase_cons_head]

theorem C4_witness :
    ∃ s1 s2 s3 : BufferState,
      add_input (mkBuffer 2 50) "a" 0 1 = .ok (true, s1) ∧
      add_input s1 "b" 0 2 = .ok (true, s2) ∧
      add_input s2 "c" 5 3 = .ok (true, s3) ∧
      s2.queue = [⟨0, 1, "a"⟩, ⟨0, 2, "b"⟩] ∧
      s3.queue = [⟨0, 2, "b"⟩, ⟨5, 3, "c"⟩] :=
  C4_capacity_two_eviction 1 2 3 "a" "b" "c" (by norm_num) (by norm_num)

/-- Claim C5: the debounce gate is a hard rate limiter.  Two get_next calls
less than debounce apart yield at most one non-empty result even with items
queued; with the gate open at the first call and the calls at least debounce
apart, two queued items give two non-empty results; and a call that returns
nothing leaves the whole state - in particular the gate clock - unchanged,
so only a successful return resets the clock. -/
theorem C5_debounce_gate (s : BufferState) (t1 t2 : ℚ) :
    ((get_next s t1).1 = none → (get_next s t1).2 = s) ∧
    (t2 - t1 < s.debounce →
      (get_next s t1).1 = none ∨ (get_next (get_next s t1).2 t2).1 = none) ∧
    (s.debounce ≤ t1 - s.last_execution_time → s.debounce ≤ t2 - t1 →
      2 ≤ s.queue.length →
      (get_next s t1).1.isSome ∧ (get_next (get_next s t1).2 t2).1.isSome) := by
  refine ⟨?_, ?_, ?_⟩
  · intro h
    by_cases hg : t1 - s.last_execution_time < s.debounce
    · rw [get_next_closed hg]
    · cases hp : popMin s.queue with
      | none => rw [get_next_open hg, hp]
      | some eq1 =>
        rcases eq1 with ⟨e, q1⟩
        rw [get_next_some hg hp] at h
        simp at h
  · intro hlt
    by_cases hg : t1 - s.last_execution_time < s.debounce
    · exact Or.inl (by rw [get_next_closed hg])
    · cases hp : popMin s.queue with
      | none => exact Or.inl (by rw [get_next_open hg, hp])
      | some eq1 =>
        rcases eq1 with ⟨e, q1⟩
        refine Or.inr ?_
        rw [get_next_some hg hp]
        exact congrArg Prod.fst (get_next_closed hlt)
  · intro h1 h2 hlen
    have hg1 : ¬ t1 - s.last_execution_time < s.debounce := not_lt.mpr h1
    have hne : s.queue ≠ [] := by
      intro he; rw [he] at hlen; simp at hlen
    rcases popMin_some hne with ⟨e, q1, hp, -, -, -⟩
    have hl1 : q1.length + 1 = s.queue.length := popMin_length hp
    have hne1 : q1 ≠ [] := by
      intro he; rw [he] at hl1; simp at hl1; omega
    rcases popMin_some hne1 with ⟨e2, q2, hp2, -, -, -⟩
    have hg2 : ¬ t2 - t1 < s.debounce := not_lt.mpr h2
    rw [get_next_some hg1 hp]
    refine ⟨rfl, ?_⟩
    show (get_next { s with queue := q1, last_execution_time := t1 } t2).1.isSome
    rw [get_next_some hg2 hp2]
    rfl

/-- Open-gate buffer with two queued items and debounce one second. -/
def c5Buf : BufferState :=
  ⟨10, 1, [⟨0, 1, "u"⟩, ⟨0, 2, "v"⟩], 0⟩

/-- Closed-gate buffer: the last successful return was half a second ago. -/
def c5BufClosed : BufferState :=
  ⟨10, 1, [⟨0, 0, "w"⟩], 1⟩

theorem C5_witness :
    ((get_next c5Buf 1).1 = none ∨
      (get_next (get_next c5Buf 1).2 (3 / 2)).1 = none) ∧
    ((get_next c5Buf 1).1.isSome ∧ (get_next (get_next c5Buf 1).2 2).1.isSome) ∧
    (get_next c5BufClosed (3 / 2)).2 = c5BufClosed :=
  ⟨(C5_debounce_gate c5Buf 1 (3 / 2)).2.1 (by norm_num [c5Buf]),
   (C5_debounce_gate c5Buf 1 2).2.2 (by norm_num [c5Buf]) (by norm_num [c5Buf])
     (by norm_num [c5Buf]),
   (C5_debounce_gate c5BufClosed (3 / 2) 0).1
     (by norm_num [c5BufClosed, get_next])⟩

/-- Claim C9: on any buffer of capacity at least one whose queue respects the
capacity bound, a single-threaded add_input returns True, never raises
(never reaches the Except.error branch modelling an uncaught queue.Full), and
preserves the capacity bound: at capacity, removing one queued element always
makes room. -/
theorem C9_add_input_ok (s : BufferState) (cmd : String) (prio : Int) (now : ℚ)
    (hcap : 1 ≤ s.capacity) (hinv : s.queue.length ≤ s.capacity) :
    ∃ s1 : BufferState, add_input s cmd prio now = .ok (true, s1) ∧
      s1.queue.length ≤ s.capacity := by
  simp only [add_input]
  by_cases h : s.queue.length < s.capacity
  · have hput : putNowait s.capacity s.queue ⟨prio, now, cmd⟩ =
        some (s.queue ++ [⟨prio, now, cmd⟩]) := by
      unfold putNowait; rw [if_pos (Or.inr h)]
    rw [hput]
    exact ⟨_, rfl, by simp; omega⟩
  · have hput : putNowait s.capacity s.queue ⟨prio, now, cmd⟩ = none := by
      unfold putNowait
      rw [if_neg]
      rintro (h0 | hl)
      · omega
      · exact h hl
    have hlen : s.queue.length = s.capacity := le_antisymm hinv (not_lt.mp h)
    have hne : s.queue ≠ [] := by
      intro he; rw [he] at hlen; simp at hlen; omega
    rcases popMin_some hne with ⟨e, q1, hp, -, -, -⟩
    have hl1 : q1.length + 1 = s.queue.length := popMin_length hp
    have hput2 : putNowait s.capacity q1 ⟨prio, now, cmd⟩ =
        some (q1 ++ [⟨prio, now, cmd⟩]) := by
      unfold putNowait; rw [if_pos (Or.inr (by omega))]
    simp only [hput, hp, hput2]
    exact ⟨_, rfl, by simp; omega⟩

/-- A capacity-one buffer already at capacity. -/
def c9Buf : BufferState :=
  ⟨1, 1, [⟨0, 0, "k"⟩], 0⟩

theorem C9_witness :
    ∃ s1 : BufferState, add_input c9Buf "m" 0 5 = .ok (true, s1) ∧
      s1.queue.length ≤ c9Buf.capacity :=
  C9_add_input_ok c9Buf "m" 0 5 (by norm_num [c9Buf]) (by norm_num [c9Buf])

/-! ## Matcher lemmas -/

/-- The regex stage is the first hit of a find-first scan over the compiled
pattern list restricted to the requested language. -/
lemma regex_stage_eq_find (patterns : List CompiledPattern) (text : String)
    (language : Language) :
    regex_stage patterns text language =
      (patterns.find?
          (fun q => q.language == language && (patSearch q.pat text).isSome)).map
        (fun p =>
          { cmd := some p.cmd
            params := if p.is_regex then (patSearch p.pat text).join else none
            score := 100
            method := some "Regex" }) := by
  induction patterns with
  | nil => rfl
  | cons p rest ih =>
    simp only [regex_stage, List.find?]
    by_cases hl : p.language = language
    · rw [if_pos hl]
      cases hs : patSearch p.pat text with
      | none => simp [hl, hs, ih]
      | some g => simp [hl, hs]
    · rw [if_neg hl]
      have : (p.language == language) = false := beq_eq_false_iff_ne.mpr hl
      simp [this, ih]

lemma regex_stage_method {patterns : List CompiledPattern} {text : String}
    {language : Language} {r : MatchResult}
    (h : regex_stage patterns text language = some r) : r.method = some "Regex" := by
  rw [regex_stage_eq_find] at h
  rcases Option.map_eq_some'.mp h with ⟨p, -, hr⟩
  rw [← hr]

lemma fuzzyStep_sound {sim : String → String → Nat} {text : String}
    {best : Option String × Nat} {cd : String × CommandData} {c : String}
    (h : (fuzzyStep sim text best cd).1 = some c) :
    best.1 = some c ∨
      (c = cd.1 ∧ ∃ ft, cd.2.fuzzy_target = some ft ∧ ft.isEmpty = false) := by
  cases hft : cd.2.fuzzy_target with
  | none =>
    simp only [fuzzyStep, hft] at h
    exact Or.inl h
  | some ft =>
    simp only [fuzzyStep, hft] at h
    by_cases he : ft.isEmpty = true
    · rw [if_pos he] at h; exact Or.inl h
    · rw [if_neg he] at h
      by_cases hs : best.2 < sim ft text
      · rw [if_pos hs] at h
        have h2 : some cd.1 = some c := h
        exact Or.inr ⟨(Option.some.inj h2).symm, ft, by simp [hft],
          by simpa using he⟩
      · rw [if_neg hs] at h; exact Or.inl h

lemma fuzzy_foldl_sound (sim : String → String → Nat) (text : String) :
    ∀ (L : List (String × CommandData)) (acc : Option String × Nat) (c : String),
      (L.foldl (fuzzyStep sim text) acc).1 = some c →
      acc.1 = some c ∨
        ∃ d, (c, d) ∈ L ∧ ∃ ft, d.fuzzy_target = some ft ∧ ft.isEmpty = false := by
  intro L
  induction L with
  | nil => intro acc c h; exact Or.inl h
  | cons cd rest ih =>
    intro acc c h
    rcases ih (fuzzyStep sim text acc cd) c h with h1 | ⟨d, hd, hft⟩
    · rcases fuzzyStep_sound h1 with h2 | ⟨hc, ft, hft, hne⟩
      · exact Or.inl h2
      · refine Or.inr ⟨cd.2, ?_, ft, hft, hne⟩
        rw [hc]
        exact List.mem_cons.mpr (Or.inl rfl)
    · exact Or.inr ⟨d, List.mem_cons_of_mem _ hd, hft⟩

lemma match_command_of_regex {sim : String → String → Nat}
    {patterns : List CompiledPattern} {threshold : Nat} {text : String}
    {language : Language} {r : MatchResult}
    (h : regex_stage patterns text language = some r) :
    match_command sim patterns threshold text language = r := by
  unfold match_command; rw [h]

lemma match_command_of_fuzzy {sim : String → String → Nat}
    {patterns : List CompiledPattern} {threshold : Nat} {text : String}
    {language : Language}
    (h : regex_stage patterns text language = none)
    (ht : threshold ≤ (fuzzy_best sim text).2) :
    match_command sim patterns threshold text language =
      { cmd := (fuzzy_best sim text).1, params := none,
        score := (fuzzy_best sim text).2, method := some "Fuzzy" } := by
  unfold match_command; rw [h]; exact if_pos ht

lemma match_command_of_reject {sim : String → String → Nat}
    {patterns : List CompiledPattern} {threshold : Nat} {text : String}
    {language : Language}
    (h : regex_stage patterns text language = none)
    (ht : ¬ threshold ≤ (fuzzy_best sim text).2) :
    match_command sim patterns threshold text language =
      { cmd := none, params := none, score := 0, method := none } := by
  unfold match_command; rw [h]; exact if_neg ht

/-- Every command of the catalog that carries a usable fuzzy anchor is
non-parametric: the only parametric command, jump_slide, has fuzzy_target
None (regex only, for safety). -/
lemma viable_not_parametric {c : String} {d : CommandData} {ft : String}
    (hmem : (c, d) ∈ MULTILANG_COMMANDS) (hft : d.fuzzy_target = some ft) :
    is_parametric c = false := by
  simp only [MULTILANG_COMMANDS, List.mem_cons, List.not_mem_nil, or_false,
    Prod.mk.injEq] at hmem
  rcases hmem with h | h | h | h | h | h | h | h | h <;>
    obtain ⟨rfl, rfl⟩ := h <;>
    first
      | (exact absurd hft (by simp [jumpSlideData]))
      | decide

/-! ## Matcher claims -/

/-- Claim C2 counterexample: with the default catalog,
match("can you please go to the next one", ENGLISH) is decided by the regex
stage - the unanchored pattern "next" of next_slide matches inside the text -
so the method is Regex, not Fuzzy, and raising the threshold to 99 does not
produce the rejection (None, None, 0, None).  The regex stage consults no
similarity scorer, and match_command reads the scorer only after the regex
stage returns nothing, so the concrete scorer instantiated here is
immaterial. -/
theorem C2_counterexample :
    regex_stage defaultPatterns "can you please go to the next one" .ENGLISH =
      some { cmd := some "next_slide", params := none, score := 100,
             method := some "Regex" } ∧
    (match_command (fun _ _ => 0) defaultPatterns 80
        "can you please go to the next one" .ENGLISH).method = some "Regex" ∧
    match_command (fun _ _ => 0) defaultPatterns 99
        "can you please go to the next one" .ENGLISH ≠
      { cmd := none, params := none, score := 0, method := none } := by
  exact ⟨by decide, by decide, by decide⟩

/-- Claim C2 (amended): with the default catalog,
match("can you please go to the next one", ENGLISH) resolves via the Regex
stage to next_slide with score 100 - the pattern "next" matches as a
substring - for every similarity scorer, at threshold 80 and equally at
threshold 99: the fuzzy stage is never reached and no rejection occurs. -/
theorem C2_regex_resolves (sim : String → String → Nat) :
    match_command sim defaultPatterns 80
        "can you please go to the next one" .ENGLISH =
      { cmd := some "next_slide", params := none, score := 100,
        method := some "Regex" } ∧
    match_command sim defaultPatterns 99
        "can you please go to the next one" .ENGLISH =
      { cmd := some "next_slide", params := none, score := 100,
        method := some "Regex" } := by
  have h : regex_stage defaultPatterns "can you please go to the next one"
      .ENGLISH =
      some { cmd := some "next_slide", params := none, score := 100,
             method := some "Regex" } := by decide
  constructor <;> (unfold match_command; rw [h])

/-- Claim C3: for every similarity scorer, threshold, text and language, a
match_command result with method Fuzzy carries no parameter, and its command
is never parametric: the fuzzy loop only ever selects commands with a usable
fuzzy anchor, and the only parametric command in the catalog, jump_slide, has
none. -/
theorem C3_fuzzy_never_parametric (sim : String → String → Nat) (threshold : Nat)
    (text : String) (language : Language)
    (h : (match_command sim defaultPatterns threshold text language).method =
      some "Fuzzy") :
    (match_command sim defaultPatterns threshold text language).params = none ∧
    ∀ c, (match_command sim defaultPatterns threshold text language).cmd = some c →
      is_parametric c = false := by
  cases hr : regex_stage defaultPatterns text language with
  | some r =>
    rw [@match_command_of_regex sim defaultPatterns threshold text language r hr] at h
    rw [regex_stage_method hr] at h
    exact absurd h (by decide)
  | none =>
    by_cases ht : threshold ≤ (fuzzy_best sim text).2
    · rw [@match_command_of_fuzzy sim defaultPatterns threshold text language hr ht]
      refine ⟨rfl, ?_⟩
      intro c hc
      rcases fuzzy_foldl_sound sim text MULTILANG_COMMANDS (none, 0) c hc with
        h1 | ⟨d, hd, ft, hft, -⟩
      · cases h1
      · exact viable_not_parametric hd hft
    · rw [@match_command_of_reject sim defaultPatterns threshold text language hr ht] at h
      exact absurd h (by decide)

theorem C3_witness :
    (match_command (fun _ _ => 90) defaultPatterns 80 "zzz" .ENGLISH).params =
      none ∧
    is_parametric "next_slide" = false :=
  ⟨(C3_fuzzy_never_parametric (fun _ _ => 90) 80 "zzz" .ENGLISH (by decide)).1,
   (C3_fuzzy_never_parametric (fun _ _ => 90) 80 "zzz" .ENGLISH (by decide)).2
     "next_slide" (by decide)⟩

/-- Claim C6: the regex stage scans the compiled patterns of the requested
language in registration order; the first pattern whose regex matches the
text (case-insensitively, anywhere in the text) determines the result, with
score 100, method Regex, and the captured integer as parameter exactly for
parametric patterns; in particular, with the default catalog,
match("jump to slide 5", ENGLISH) = (jump_slide, "5", 100, Regex) and
match("next", ENGLISH) = (next_slide, None, 100, Regex), for every
similarity scorer. -/
theorem C6_regex_stage_spec (sim : String → String → Nat) (threshold : Nat)
    (text : String) (language : Language) (p : CompiledPattern)
    (g : Option String) :
    (defaultPatterns.find?
        (fun q => q.language == language && (patSearch q.pat text).isSome) =
          some p →
      patSearch p.pat text = some g →
      match_command sim defaultPatterns threshold text language =
        { cmd := some p.cmd, params := if p.is_regex then g else none,
          score := 100, method := some "Regex" }) ∧
    match_command sim defaultPatterns 80 "jump to slide 5" .ENGLISH =
      { cmd := some "jump_slide", params := some "5", score := 100,
        method := some "Regex" } ∧
    match_command sim defaultPatterns 80 "next" .ENGLISH =
      { cmd := some "next_slide", params := none, score := 100,
        method := some "Regex" } := by
  have key : ∀ (text : String) (language : Language) (thr : Nat)
      (p : CompiledPattern) (g : Option String),
      defaultPatterns.find?
          (fun q => q.language == language && (patSearch q.pat text).isSome) =
        some p →
      patSearch p.pat text = some g →
      match_command sim defaultPatterns thr text language =
        { cmd := some p.cmd, params := if p.is_regex then g else none,
          score := 100, method := some "Regex" } := by
    intro text language thr p g hf hs
    have hr : regex_stage defaultPatterns text language =
        some { cmd := some p.cmd,
               params := if p.is_regex then (patSearch p.pat text).join else none,
               score := 100, method := some "Regex" } := by
      rw [regex_stage_eq_find, hf]; rfl
    rw [match_command_of_regex hr, hs]
    rfl
  refine ⟨key text language threshold p g, ?_, ?_⟩
  · have h := key "jump to slide 5" .ENGLISH 80
      ⟨.altNum ["jump to", "go to", "slide", "page"], "jump_slide", .ENGLISH, true⟩
      (some "5") (by decide) (by decide)
    simpa using h
  · have h := key "next" .ENGLISH 80
      ⟨.lit "next", "next_slide", .ENGLISH, false⟩ none (by decide) (by decide)
    simpa using h

theorem C6_witness :
    match_command (fun _ _ => 0) defaultPatterns 77 "go to 12" .ENGLISH =
      { cmd := some "jump_slide", params := some "12", score := 100,
        method := some "Regex" } := by
  have h := (C6_regex_stage_spec (fun _ _ => 0) 77 "go to 12" .ENGLISH
      ⟨.altNum ["jump to", "go to", "slide", "page"], "jump_slide", .ENGLISH, true⟩
      (some "12")).1 (by decide) (by decide)
  simpa using h

/-! ## Worker pool lemmas -/

lemma get?_set_same {α : Type} (l : List α) (i : Nat) (a : α) (h : i < l.length) :
    (l.set i a)[i]? = some a := by
  induction l generalizing i with
  | nil => simp at h
  | cons x xs ih =>
    cases i with
    | zero => simp
    | succ n => simpa using ih n (by simpa using h)

lemma get?_set_other {α : Type} (l : List α) (i j : Nat) (a : α) (h : i ≠ j) :
    (l.set i a)[j]? = l[j]? := by
  induction l generalizing i j with
  | nil => rfl
  | cons x xs ih =>
    cases i with
    | zero =>
      cases j with
      | zero => exact absurd rfl h
      | succ m => simp
    | succ n =>
      cases j with
      | zero => simp
      | succ m => simpa using ih n m (fun hh => h (by rw [hh]))

lemma poolStep_length (f : String → Language × ℚ) (texts : List String)
    (slots : List (Option (Language × ℚ))) (i : Nat) :
    (poolStep f texts slots i).length = slots.length := by
  unfold poolStep
  cases texts[i]? <;> simp

lemma foldl_pool_length (f : String → Language × ℚ) (texts : List String) :
    ∀ (sched : List Nat) (slots : List (Option (Language × ℚ))),
      (sched.foldl (poolStep f texts) slots).length = slots.length := by
  intro sched
  induction sched with
  | nil => intro slots; rfl
  | cons i rest ih =>
    intro slots
    rw [List.foldl_cons, ih, poolStep_length]

lemma foldl_pool_untouched (f : String → Language × ℚ) (texts : List String) :
    ∀ (sched : List Nat) (slots : List (Option (Language × ℚ))) (j : Nat),
      j ∉ sched →
      (sched.foldl (poolStep f texts) slots)[j]? = slots[j]? := by
  intro sched
  induction sched with
  | nil => intro slots j _; rfl
  | cons i rest ih =>
    intro slots j hj
    have h1 : j ≠ i := fun hh => hj (hh ▸ List.mem_cons.mpr (Or.inl rfl))
    have h2 : j ∉ rest := fun hh => hj (List.mem_cons_of_mem _ hh)
    rw [List.foldl_cons, ih _ j h2]
    unfold poolStep
    cases texts[i]? with
    | none => rfl
    | some t => exact get?_set_other _ i j _ (fun hh => h1 hh.symm)

lemma foldl_pool_done (f : String → Language × ℚ) (texts : List String) :
    ∀ (sched : List Nat) (slots : List (Option (Language × ℚ))) (j : Nat),
      j ∈ sched → slots.length = texts.length →
      (sched.foldl (poolStep f texts) slots)[j]? =
        (texts[j]?).map (fun t => some (f t)) := by
  intro sched
  induction sched with
  | nil => intro _ j hj _; cases hj
  | cons i rest ih =>
    intro slots j hj hlen
    rw [List.foldl_cons]
    by_cases hr : j ∈ rest
    · exact ih _ j hr (by rw [poolStep_length]; exact hlen)
    · have hij : j = i := by
        rcases List.mem_cons.mp hj with h | h
        · exact h
        · exact absurd h hr
      subst hij
      rw [foldl_pool_untouched f texts rest _ j hr]
      unfold poolStep
      cases ht : texts[j]? with
      | none =>
        have hlt : texts.length ≤ j := List.getElem?_eq_none_iff.mp ht
        have hempty : slots[j]? = none := List.getElem?_eq_none (by omega)
        simp [hempty]
      | some t =>
        have hlt : j < texts.length := by
          by_contra hh
          rw [List.getElem?_eq_none (by omega)] at ht
          cases ht
        have hset := get?_set_same slots j (some (f t)) (by omega)
        simp [hset]

lemma runPool_complete (classify : String → Option String) (d : DetectorConfig)
    (texts : List String) (sched : List Nat)
    (hc : ∀ i, i < texts.length → i ∈ sched) :
    runPool (detect classify d) texts sched =
      (texts.map (detect classify d)).map (fun x => some x) := by
  apply List.ext_getElem?
  intro i
  by_cases hi : i < texts.length
  · rw [runPool, foldl_pool_done _ _ sched _ i (hc i hi) (by simp)]
    rw [List.getElem?_map, List.getElem?_map]
    cases texts[i]? <;> rfl
  · have h1 : texts.length ≤ i := Nat.le_of_not_lt hi
    rw [runPool]
    rw [List.getElem?_eq_none (by rw [foldl_pool_length]; simpa using h1)]
    rw [List.getElem?_eq_none (by simpa using h1)]

lemma gatherSome_map_some (l : List (Language × ℚ)) :
    gatherSome (l.map (fun x => some x)) = some l := by
  induction l with
  | nil => rfl
  | cons x xs ih => simp [gatherSome, ih]

/-! ## Detector claim -/

/-- Claim C8: detect_batch returns one result per input text, in input order,
each equal to detect of the corresponding text, and the parallel execution
over the worker pool returns exactly the sequential result for every
interleaving of the tasks (any schedule that runs each task at least once),
for every classifier behaviour. -/
theorem C8_detect_batch_deterministic (classify : String → Option String)
    (d : DetectorConfig) (texts : List String) (sched : List Nat)
    (hc : ∀ i, i < texts.length → i ∈ sched) :
    detect_batch classify d true texts sched =
      some (texts.map (detect classify d)) ∧
    detect_batch classify d false texts sched =
      some (texts.map (detect classify d)) ∧
    (texts.map (detect classify d)).length = texts.length ∧
    ∀ i : Nat, (texts.map (detect classify d))[i]? =
      (texts[i]?).map (detect classify d) := by
  refine ⟨?_, rfl, by simp, fun i => by simp⟩
  show gatherSome (runPool (detect classify d) texts sched) = _
  rw [runPool_complete classify d texts sched hc, gatherSome_map_some]

/-- Classifier stub: Spanish for the one Spanish text, English otherwise. -/
def c8Classify : String → Option String :=
  fun t => if t = "hola" then some "es" else some "en"

def c8Config : DetectorConfig :=
  ⟨[.ENGLISH, .SPANISH, .FRENCH, .GERMAN], .ENGLISH⟩

theorem C8_witness :
    detect_batch c8Classify c8Config true ["next", "hola"] [1, 0] =
      some (["next", "hola"].map (detect c8Classify c8Config)) ∧
    detect_batch c8Classify c8Config false ["next", "hola"] [1, 0] =
      some (["next", "hola"].map (detect c8Classify c8Config)) ∧
    (["next", "hola"].map (detect c8Classify c8Config)).length =
      (["next", "hola"] : List String).length ∧
    ∀ i : Nat, (["next", "hola"].map (detect c8Classify c8Config))[i]? =
      ((["next", "hola"] : List String)[i]?).map (detect c8Classify c8Config) :=
  C8_detect_batch_deterministic c8Classify c8Config ["next", "hola"] [1, 0]
    (by intro i hi; simp at hi; interval_cases i <;> decide)

/-! ## Logger lemmas and claims -/

/-- Filtering out an id twice is the same as filtering it once. -/
lemma filter_ne_id_idem (l : List AudioTextRecord) (i : String) :
    (l.filter (fun x => x.id != i)).filter (fun x => x.id != i) =
      l.filter (fun x => x.id != i) := by
  apply List.filter_eq_self.mpr
  intro x hx
  exact (List.mem_filter.mp hx).2

/-- Re-logging a record whose id is already the id of the latest logged
record leaves the number of SQLite rows unchanged. -/
lemma relog_db_length (s : LoggerState) (r r2 : AudioTextRecord)
    (hid : r2.id = r.id) :
    (log_text (log_text s r) r2).db.length = (log_text s r).db.length := by
  simp only [log_text, List.filter_append, hid]
  rw [filter_ne_id_idem]
  simp

/-- Claim C7: re-logging a record with an id already stored overwrites the
row with that id rather than duplicating it: get_statistics total_entries is
unchanged by the re-log, and the rows carrying that id afterwards are exactly
the new record. -/
theorem C7_relog_overwrites (s : LoggerState) (r r2 : AudioTextRecord)
    (hid : r2.id = r.id) :
    (get_statistics (log_text (log_text s r) r2)).total_entries =
      (get_statistics (log_text s r)).total_entries ∧
    (log_text (log_text s r) r2).db.filter (fun x => x.id == r.id) = [r2] := by
  constructor
  · exact relog_db_length s r r2 hid
  · simp only [log_text, List.filter_append, hid]
    have h0 : ∀ l : List AudioTextRecord,
        (l.filter (fun x => x.id != r.id)).filter (fun x => x.id == r.id) = [] := by
      intro l
      apply List.filter_eq_nil_iff.mpr
      intro x hx
      have hne := (List.mem_filter.mp hx).2
      simp only [bne_iff_ne, ne_eq] at hne
      simp [hne]
    rw [h0]
    simp [hid]

def c7Rec : AudioTextRecord :=
  ⟨"id1", "next", "next_slide", 1, "t1", "google", "en", "default", 2⟩

def c7Rec2 : AudioTextRecord :=
  ⟨"id1", "go forward", "next_slide", 1, "t2", "google", "en", "default", 3⟩

theorem C7_witness :
    (get_statistics (log_text (log_text emptyLogger c7Rec) c7Rec2)).total_entries =
      (get_statistics (log_text emptyLogger c7Rec)).total_entries ∧
    (log_text (log_text emptyLogger c7Rec) c7Rec2).db.filter
        (fun x => x.id == c7Rec.id) = [c7Rec2] :=
  C7_relog_overwrites emptyLogger c7Rec c7Rec2 rfl

/-- Claim C10: every log_text call appends exactly one line to the JSONL
file, including a re-log of an already stored id, while the re-log leaves the
SQLite row count unchanged: the overwrite-not-duplicate behaviour holds only
for the SQLite store. -/
theorem C10_jsonl_always_appends (s : LoggerState) (r : AudioTextRecord) :
    (log_text s r).jsonl.length = s.jsonl.length + 1 ∧
    ∀ r2, r2.id = r.id →
      (log_text (log_text s r) r2).jsonl.length =
        (log_text s r).jsonl.length + 1 ∧
      (log_text (log_text s r) r2).db.length = (log_text s r).db.length := by
  refine ⟨by simp [log_text], ?_⟩
  intro r2 hid
  exact ⟨by simp [log_text], relog_db_length s r r2 hid⟩

def c10Rec : AudioTextRecord :=
  ⟨"id9", "black screen", "blackout", 1, "t1", "google", "en", "default", 1⟩

def c10Rec2 : AudioTextRecord :=
  ⟨"id9", "dark screen", "blackout", 1, "t2", "google", "en", "default", 1⟩

theorem C10_witness :
    (log_text emptyLogger c10Rec).jsonl.length = emptyLogger.jsonl.length + 1 ∧
    (log_text (log_text emptyLogger c10Rec) c10Rec2).jsonl.length =
      (log_text emptyLogger c10Rec).jsonl.length + 1 ∧
    (log_text (log_text emptyLogger c10Rec) c10Rec2).db.length =
      (log_text emptyLogger c10Rec).db.length :=
  ⟨(C10_jsonl_always_appends emptyLogger c10Rec).1,
   ((C10_jsonl_always_appends emptyLogger c10Rec).2 c10Rec2 rfl).1,
   ((C10_jsonl_always_appends emptyLogger c10Rec).2 c10Rec2 rfl).2⟩

end YotV531
